import Mathlib

/-!
Shallow embedding of the OCR gateway repository (src/utils.py, src/apis/ocr.py)
and proofs about its spec claims.

Text is modelled as `List Char`, Python floats as `ℚ`, the in-process TTL cache
as an explicit list of entries threaded through the orchestrator.
-/

namespace OCRGateway

/-- Python's `\s` character class restricted to ASCII (after the printable-ASCII
substitution only these can occur): space, tab, newline, carriage return,
vertical tab, form feed. -/
def isPySpace (c : Char) : Bool :=
  c = ' ' || c = '\t' || c = '\n' || c = '\r' || c = '\x0b' || c = '\x0c'

/-- A character in the printable ASCII range 0x20–0x7E. -/
def isPrintableAscii (c : Char) : Bool :=
  0x20 ≤ c.toNat && c.toNat ≤ 0x7E

/-- `re.sub(r"[^\x20-\x7E]", " ", text)` from `text_cleanup` (src/utils.py line 20):
replace every character outside printable ASCII with a single space. -/
def replaceNonPrintable (s : List Char) : List Char :=
  s.map (fun c => if isPrintableAscii c then c else ' ')

theorem dropWhile_length_le (p : Char → Bool) (l : List Char) :
    (l.dropWhile p).length ≤ l.length := by
  induction l with
  | nil => simp [List.dropWhile]
  | cons c cs ih =>
    simp only [List.dropWhile]
    split
    · exact Nat.le_succ_of_le ih
    · simp

/-- `re.sub(r"\s+", " ", text)` (src/utils.py line 23): each maximal run of
whitespace becomes one single space. -/
def collapseWS : List Char → List Char
  | [] => []
  | c :: cs =>
    if isPySpace c then ' ' :: collapseWS (cs.dropWhile isPySpace)
    else c :: collapseWS cs
termination_by l => l.length
decreasing_by
  · simp only [List.length_cons]
    exact Nat.lt_succ_of_le (dropWhile_length_le _ _)
  · simp

/-- Python `str.strip()`: drop leading and trailing whitespace. -/
def pyStrip (s : List Char) : List Char :=
  ((s.dropWhile isPySpace).reverse.dropWhile isPySpace).reverse

/-- `text_cleanup` from src/utils.py lines 10–25: substitute non-printable
characters by spaces, collapse whitespace runs, strip the ends. -/
def text_cleanup (s : List Char) : List Char :=
  pyStrip (collapseWS (replaceNonPrintable s))

/-! ### OCR document model (google vision `full_text_annotation` shape) -/

/-- A word-level recognition unit; `confidence` is `none` when the engine
reported no confidence for the word. -/
structure OCRWord where
  confidence : Option ℚ
deriving Repr, DecidableEq

structure OCRParagraph where
  words : List OCRWord
deriving Repr, DecidableEq

structure OCRBlock where
  paragraphs : List OCRParagraph
deriving Repr, DecidableEq

structure OCRPage where
  blocks : List OCRBlock
deriving Repr, DecidableEq

/-- The document produced by the external OCR engine: flat text plus the
page → block → paragraph → word hierarchy. -/
structure OCRDocument where
  text : List Char
  pages : List OCRPage
deriving Repr, DecidableEq

/-- Python truthiness of `word.confidence`: `None` and `0.0` are falsy. -/
def confTruthy : Option ℚ → Bool
  | none => false
  | some c => c ≠ 0

/-- The list comprehension of src/utils.py lines 39–46: word confidences
gathered over all pages/blocks/paragraphs/words, keeping a word only when
`word.confidence` is truthy. -/
def word_confidences (d : OCRDocument) : List ℚ :=
  (d.pages.flatMap fun page =>
    page.blocks.flatMap fun block =>
      block.paragraphs.flatMap fun paragraph =>
        paragraph.words.filter (fun w => confTruthy w.confidence)).map
    (fun w => w.confidence.getD 0)

/-- src/utils.py lines 48–51: mean of the collected confidences, 0.0 when the
collection is empty. -/
def base_confidence (d : OCRDocument) : ℚ :=
  let wc := word_confidences d
  if wc ≠ [] then wc.sum / wc.length else 0

/-- `document.text.strip() if document.text else ""` (src/utils.py line 38). -/
def extractedText (d : OCRDocument) : List Char :=
  if d.text ≠ [] then pyStrip d.text else []

/-- The character class `[^a-zA-Z0-9\s.,!?-]` of src/utils.py line 56. -/
def isNonAlpha (c : Char) : Bool :=
  !(('a' ≤ c && c ≤ 'z') || ('A' ≤ c && c ≤ 'Z') || ('0' ≤ c && c ≤ '9') ||
    isPySpace c || c = '.' || c = ',' || c = '!' || c = '?' || c = '-')

/-- Python `round(x, 5)` modelled on ℚ: round to 5 decimal digits. -/
def round5 (q : ℚ) : ℚ :=
  (round (q * 100000) : ℤ) / 100000

/-- `get_confidence_score` from src/utils.py lines 28–62: mean of truthy word
confidences, halved when the stripped text is shorter than 10 characters,
scaled by one minus the non-alphanumeric ratio, clamped to [0,1], rounded to
5 decimal digits. -/
def get_confidence_score (d : OCRDocument) : ℚ :=
  let extracted_text := extractedText d
  let confidence := base_confidence d
  let confidence := if extracted_text.length < 10 then confidence * (1/2) else confidence
  let non_alpha_ratio :=
    ((extracted_text.filter isNonAlpha).length : ℚ) / (max 1 extracted_text.length : ℕ)
  let confidence := confidence * (1 - non_alpha_ratio)
  round5 (max 0 (min 1 confidence))

/-! ### Result cache (src/utils.py lines 119–178)

`ocr_cache = TTLCache(maxsize=1000, ttl=3600)`: a bounded store with absolute
per-entry expiry. Modelled as a list of entries, most recently inserted first;
`put` drops expired entries and evicts from the old end when at capacity. -/

def maxsize : ℕ := 1000

def ttl : ℤ := 3600

/-- The externally visible response dict, together with the two internal-only
bookkeeping keys (`cached_at`, `cache_hit`) that `cache_result` adds; `none`
models the key being absent from the dict. -/
structure OCRResult where
  success : Bool
  text : List Char
  confidence : ℚ
  processing_time_ms : ℤ
  metadata : List Char
  cached_at : Option ℤ
  cache_hit : Option Bool
deriving Repr, DecidableEq

structure CacheEntry where
  key : List Char
  value : OCRResult
  insertedAt : ℤ
deriving Repr, DecidableEq

/-- The cache contents, newest entry first. -/
def Cache := List CacheEntry

instance : DecidableEq Cache :=
  inferInstanceAs (DecidableEq (List CacheEntry))

/-- An entry is live at time `t` when fewer than `ttl` seconds have elapsed
since its insertion. -/
def liveAt (t : ℤ) (e : CacheEntry) : Bool :=
  t < e.insertedAt + ttl

/-- `get_cached_result` (src/utils.py lines 136–146): `ocr_cache.get(hash)`,
where an expired entry behaves as absent. -/
def get_cached_result (c : Cache) (t : ℤ) (k : List Char) : Option OCRResult :=
  ((c.filter (liveAt t)).find? (fun e => e.key = k)).map (·.value)

/-- `ocr_cache[hash] = value` on a `TTLCache`: expired entries are removed,
a same-key entry is replaced, and when at capacity one old entry is evicted
so that at most `maxsize` entries remain. -/
def cache_put (c : Cache) (t : ℤ) (k : List Char) (v : OCRResult) : Cache :=
  ⟨k, v, t⟩ :: (((c.filter (liveAt t)).filter (fun e => e.key ≠ k)).take (maxsize - 1))

/-- `cache_result` (src/utils.py lines 149–163): store the result with the
`cached_at` timestamp and the `cache_hit` marker added. -/
def cache_result (c : Cache) (t : ℤ) (k : List Char) (result : OCRResult) : Cache :=
  cache_put c t k { result with cached_at := some t, cache_hit := some true }

/-! ### Request orchestrator (src/apis/ocr.py) -/

/-- The engine's response: the document (the `full_text_annotation` field of
the vision response) plus `response.error.message` (empty when no engine-level
error occurred). -/
structure VisionResponse where
  document : OCRDocument
  error_message : List Char
deriving Repr

/-- The errors `extract_text` raises as `HTTPException`s, with their detail
strings (src/apis/ocr.py lines 55–59, 79–89, 102–106, 137–142). -/
inductive HError where
  | unsupportedMediaType (contentType : List Char)
  | payloadTooLarge
  | serviceUnavailable
  | internalError (detail : List Char)
deriving Repr, DecidableEq

/-- External collaborators and ambient state of one request: the optional
vision client, the SHA-256 digest function, the PIL-based metadata extraction,
the wall clock at entry and the measured processing duration. -/
structure Env where
  visionClient : Option (List Nat → VisionResponse)
  sha256 : List Nat → List Char
  metadataOf : List Char → List Char → List Nat → List Char
  now : ℤ
  elapsedMs : ℤ

structure Request where
  filename : List Char
  content_type : List Char
  contents : List Nat
deriving Repr

def MAX_FILE_SIZE : ℕ := 10 * 1024 * 1024

def SUPPORTED_CONTENT_TYPES : List (List Char) :=
  ["image/jpeg".toList, "image/jpg".toList, "image/png".toList, "image/gif".toList]

/-- What one call to `extract_text` produced: the response or the raised
error, the cache afterwards, and whether the vision client was invoked. -/
structure ExtractOutcome where
  result : Except HError OCRResult
  cache : Cache
  ocrCalled : Bool

def noTextMessage : List Char := "No text found in the image.".toList

/-- `extract_text` from src/apis/ocr.py lines 41–142: validate the content
type, hash and consult the cache, on a hit return the stored dict with the
`cache_hit` key popped; on a miss validate size and client availability, call
the engine, score and clean, assemble the response and cache it. -/
def extract_text (env : Env) (c : Cache) (req : Request) : ExtractOutcome :=
  if req.content_type ∉ SUPPORTED_CONTENT_TYPES then
    ⟨.error (.unsupportedMediaType req.content_type), c, false⟩
  else
    let image_hash := env.sha256 req.contents
    match get_cached_result c env.now image_hash with
    | some cached =>
        ⟨.ok { cached with cache_hit := none }, c, false⟩
    | none =>
        let image_metadata := env.metadataOf req.filename req.content_type req.contents
        if req.contents.length > MAX_FILE_SIZE then
          ⟨.error .payloadTooLarge, c, false⟩
        else
          match env.visionClient with
          | none => ⟨.error .serviceUnavailable, c, false⟩
          | some client =>
              let response := client req.contents
              let texts := response.document
              let score := get_confidence_score texts
              if response.error_message ≠ [] then
                ⟨.error (.internalError response.error_message), c, true⟩
              else
                let json_response : OCRResult :=
                  if texts.text ≠ [] then
                    { success := true
                      text := text_cleanup texts.text
                      confidence := score
                      processing_time_ms := env.elapsedMs
                      metadata := image_metadata
                      cached_at := none
                      cache_hit := none }
                  else
                    { success := false
                      text := noTextMessage
                      confidence := 0
                      processing_time_ms := env.elapsedMs
                      metadata := image_metadata
                      cached_at := none
                      cache_hit := none }
                ⟨.ok json_response, cache_result c env.now image_hash json_response, true⟩

/-- The per-item failure record `batch_extract_text` appends when one image's
processing raised an `HTTPException` (src/apis/ocr.py lines 185–194). -/
def failure_marker (filename : List Char) (detail : List Char) : OCRResult :=
  { success := false
    text := ("Error processing image ".toList ++ filename ++ ": ".toList ++ detail)
    confidence := 0
    processing_time_ms := 0
    metadata := []
    cached_at := none
    cache_hit := none }

/-- The detail string of each raised `HTTPException`. -/
def errDetail : HError → List Char
  | .unsupportedMediaType ct =>
      "Unsupported file format. Please upload a JPG/JPEG/PNG image. Found: ".toList ++ ct
  | .payloadTooLarge => "File size exceeds the limit of 10MB.".toList
  | .serviceUnavailable =>
      "Vision API client is not available. The service cannot process images.".toList
  | .internalError d =>
      "An internal server error occurred while processing the image: ".toList ++ d

/-- `batch_extract_text` from src/apis/ocr.py lines 172–195: process the
images in order, sharing the cache; an `HTTPException` from one image becomes
its slot's failure record instead of aborting the loop. -/
def batch_extract_text (env : Env) (c : Cache) (reqs : List Request) :
    List OCRResult × Cache :=
  match reqs with
  | [] => ([], c)
  | req :: rest =>
      let o := extract_text env c req
      let slot :=
        match o.result with
        | .ok v => v
        | .error e => failure_marker req.filename (errDetail e)
      let (tailResults, finalCache) := batch_extract_text env o.cache rest
      (slot :: tailResults, finalCache)

/-! ### Spec-side formulations used to compare against the source functions -/

/-- All words of a document in page → block → paragraph order. -/
def allWords (d : OCRDocument) : List OCRWord :=
  d.pages.flatMap fun page =>
    page.blocks.flatMap fun block =>
      block.paragraphs.flatMap fun paragraph => paragraph.words

/-- The collection described by the spec's words: every word-level confidence
value that was reported (a zero value counts as reported). -/
def reported_confidences (d : OCRDocument) : List ℚ :=
  (allWords d).filterMap (fun w => w.confidence)

/-- Base confidence as the spec describes it: the arithmetic mean of all
reported confidence values, 0.0 when none was reported. -/
def spec_base_confidence (d : OCRDocument) : ℚ :=
  if reported_confidences d ≠ [] then
    (reported_confidences d).sum / (reported_confidences d).length
  else 0

/-- The reported confidence values that are nonzero. -/
def nonzero_confidences (d : OCRDocument) : List ℚ :=
  (reported_confidences d).filter (fun c => c ≠ 0)

theorem filter_truthy_eq_filterMap (ws : List OCRWord) :
    (ws.filter (fun w => confTruthy w.confidence)).map (fun w => w.confidence.getD 0) =
      (ws.filterMap (fun w => w.confidence)).filter (fun c => decide (c ≠ 0)) := by
  induction ws with
  | nil => rfl
  | cons w ws ih =>
    match h : w.confidence with
    | none =>
      rw [List.filter_cons_of_neg (by simp [confTruthy, h]),
        List.filterMap_cons_none h]
      exact ih
    | some c =>
      by_cases hc : c = 0
      · rw [List.filter_cons_of_neg (by simp [confTruthy, h, hc]),
          List.filterMap_cons_some h,
          List.filter_cons_of_neg (by simp [hc])]
        exact ih
      · rw [List.filter_cons_of_pos (by simp [confTruthy, h, hc]),
          List.filterMap_cons_some h,
          List.filter_cons_of_pos (by simp [hc]),
          List.map_cons]
        have hd : w.confidence.getD 0 = c := by rw [h]; rfl
        rw [hd, ih]

theorem word_confidences_eq_nonzero (d : OCRDocument) :
    word_confidences d = nonzero_confidences d := by
  unfold word_confidences nonzero_confidences reported_confidences allWords
  rw [← filter_truthy_eq_filterMap]
  simp [List.filter_flatMap, List.map_flatMap]

/-- Concrete document refuting C2: ten alphanumeric characters of text (so no
penalty applies) and two reported word confidences, 0.0 and 0.8. -/
def docC2 : OCRDocument :=
  { text := "abcdefghij".toList,
    pages := [{ blocks := [{ paragraphs := [{ words := [⟨some 0⟩, ⟨some (4/5)⟩] }] }] }] }

/-- C2: the claim says the base confidence is the mean of every reported
confidence, a reported 0.0 included. On `docC2` the reported confidences are
[0.0, 0.8], so the claimed base is 0.4, but the source's truthiness filter
(`if word.confidence`) drops the 0.0 and yields 0.8. -/
theorem claim_C2_counterexample :
    base_confidence docC2 = 4/5 ∧ spec_base_confidence docC2 = 2/5 ∧
      base_confidence docC2 ≠ spec_base_confidence docC2 := by
  have h1 : base_confidence docC2 = 4/5 := by
    norm_num [base_confidence, word_confidences, docC2, confTruthy, List.cons_ne_nil]
  have h2 : spec_base_confidence docC2 = 2/5 := by
    have h : reported_confidences docC2 = [0, 4/5] := rfl
    unfold spec_base_confidence
    rw [h]
    norm_num [List.cons_ne_nil]
  exact ⟨h1, h2, by rw [h1, h2]; norm_num⟩

/-- C2 (amended): the base confidence is the arithmetic mean of every
word-level confidence that was reported *and is nonzero* — words lacking a
confidence or reporting 0.0 are skipped — and the base is 0.0 when no word
reports a nonzero confidence. -/
theorem claim_C2 (d : OCRDocument) :
    base_confidence d =
      if nonzero_confidences d ≠ [] then
        (nonzero_confidences d).sum / (nonzero_confidences d).length
      else 0 := by
  unfold base_confidence
  rw [word_confidences_eq_nonzero]

/-- Trivial instantiation of `claim_C2` (its binder is not a hypothesis, but
a concrete check costs nothing): on `docC2` both sides evaluate to 0.8. -/
theorem claim_C2_witness :
    base_confidence docC2 =
      if nonzero_confidences docC2 ≠ [] then
        (nonzero_confidences docC2).sum / (nonzero_confidences docC2).length
      else 0 :=
  claim_C2 docC2

/-- The short-text penalty formula as the spec states it. -/
def short_text_penalty (textLength : ℕ) (confidence : ℚ) : ℚ :=
  if textLength < 10 then confidence * (1/2) else confidence

/-- The non-alphanumeric ratio formula as the spec states it. -/
def non_alpha_ratio (text : List Char) : ℚ :=
  ((text.filter isNonAlpha).length : ℚ) / ((max 1 text.length : ℕ) : ℚ)

def clamp01 (q : ℚ) : ℚ := max 0 (min 1 q)

/-- The C3 scenario document: text "Hi", word confidences [0.9, 0.9]. -/
def docC3 : OCRDocument :=
  { text := "Hi".toList,
    pages := [{ blocks := [{ paragraphs := [{ words := [⟨some (9/10)⟩, ⟨some (9/10)⟩] }] }] }] }

/-- C3: the scorer applies exactly the two penalty formulas to the base
confidence — halve when the trimmed text is shorter than 10 characters, then
scale by (1 − non_alpha_ratio) — then clamps to [0,1] and rounds to 5 decimal
digits; and the scenario document "Hi" with confidences [0.9, 0.9] scores
exactly 0.45. -/
theorem claim_C3 :
    (∀ d : OCRDocument,
      get_confidence_score d =
        round5 (clamp01
          (short_text_penalty (extractedText d).length (base_confidence d) *
            (1 - non_alpha_ratio (extractedText d))))) ∧
    get_confidence_score docC3 = 45/100 := by
  constructor
  · intro d; rfl
  · have h1 : extractedText docC3 = ['H', 'i'] := by decide
    have h2 : base_confidence docC3 = 9/10 := by
      norm_num [base_confidence, word_confidences, docC3, confTruthy, List.cons_ne_nil]
    have h3 : List.filter isNonAlpha ['H', 'i'] = [] := by decide
    simp only [get_confidence_score, h1, h2, h3]
    norm_num [round5, round_eq]

/-! ### Cache-hit claims (C1, C5, C10) -/

/-- C1: on a request whose hash hits an unexpired cache entry, `extract_text`
returns the stored result (with the `cache_hit` key popped), leaves the cache
unchanged, and never invokes the vision client. -/
theorem claim_C1 (env : Env) (c : Cache) (req : Request) (v : OCRResult)
    (hct : req.content_type ∈ SUPPORTED_CONTENT_TYPES)
    (hhit : get_cached_result c env.now (env.sha256 req.contents) = some v) :
    extract_text env c req = ⟨.ok { v with cache_hit := none }, c, false⟩ := by
  simp only [extract_text, hhit]
  rw [if_neg (by simpa using hct)]

/-- A stored response used by the cache-hit witnesses. -/
def resW : OCRResult :=
  { success := true, text := "HELLO".toList, confidence := 9/10,
    processing_time_ms := 42, metadata := "m".toList,
    cached_at := some 5, cache_hit := some true }

/-- Environment for the cache-hit witnesses: no vision client is even
available, so a returned response proves no OCR call happened. -/
def envW : Env :=
  { visionClient := none
    sha256 := fun _ => "k".toList
    metadataOf := fun _ _ _ => []
    now := 10
    elapsedMs := 3 }

def reqW : Request :=
  { filename := "a.png".toList, content_type := "image/png".toList, contents := [1, 2, 3] }

def cacheW : Cache := [⟨"k".toList, resW, 5⟩]

/-- Witness for C1 at a concrete hit. -/
theorem claim_C1_witness :
    reqW.content_type ∈ SUPPORTED_CONTENT_TYPES ∧
    get_cached_result cacheW envW.now (envW.sha256 reqW.contents) = some resW ∧
    extract_text envW cacheW reqW = ⟨.ok { resW with cache_hit := none }, cacheW, false⟩ :=
  ⟨by decide, rfl, claim_C1 envW cacheW reqW resW (by decide) rfl⟩

/-- C5 counterexample: the claim says both bookkeeping fields are stripped on
a hit, but only `cache_hit` is popped (src/apis/ocr.py line 71); on this
concrete hit the returned response still carries `cached_at = 5`. -/
theorem claim_C5_counterexample :
    (extract_text envW cacheW reqW).result = .ok { resW with cache_hit := none } ∧
    ({ resW with cache_hit := none } : OCRResult).cached_at = some 5 :=
  ⟨rfl, rfl⟩

/-- C5 (amended): on a cache hit only the `cache_hit` marker is stripped; the
`cached_at` insertion timestamp that `put` stored remains in the returned
response, unchanged from the stored value. -/
theorem claim_C5 (env : Env) (c : Cache) (req : Request) (v : OCRResult)
    (hct : req.content_type ∈ SUPPORTED_CONTENT_TYPES)
    (hhit : get_cached_result c env.now (env.sha256 req.contents) = some v) :
    ∃ r, (extract_text env c req).result = .ok r ∧
      r.cache_hit = none ∧ r.cached_at = v.cached_at := by
  refine ⟨{ v with cache_hit := none }, ?_, rfl, rfl⟩
  simp only [extract_text, hhit]
  rw [if_neg (by simpa using hct)]

/-- Witness for C5 at a concrete hit. -/
theorem claim_C5_witness :
    reqW.content_type ∈ SUPPORTED_CONTENT_TYPES ∧
    get_cached_result cacheW envW.now (envW.sha256 reqW.contents) = some resW ∧
    ∃ r, (extract_text envW cacheW reqW).result = .ok r ∧
      r.cache_hit = none ∧ r.cached_at = resW.cached_at :=
  ⟨by decide, rfl, claim_C5 envW cacheW reqW resW (by decide) rfl⟩

/-- What `cache_result` stores is retrievable while unexpired, with
`cached_at` equal to the insertion time and the hit marker set. -/
theorem get_cached_result_cache_result (c : Cache) (t0 t1 : ℤ) (k : List Char)
    (r : OCRResult) (ht : t1 < t0 + ttl) :
    get_cached_result (cache_result c t0 k r) t1 k =
      some { r with cached_at := some t0, cache_hit := some true } := by
  unfold get_cached_result cache_result cache_put
  rw [List.filter_cons_of_pos (by simpa [liveAt] using ht)]
  rw [List.find?_cons_of_pos _ (by simp)]
  rfl

/-- C10: on a cache hit every returned field except the popped `cache_hit`
marker is exactly the stored value — in particular `processing_time_ms` is
the stale stored value (the response does not depend on the hit request's
measured elapsed time) and `cached_at` is the original insertion time that
`cache_result` stored. -/
theorem claim_C10 (env env' : Env) (c : Cache) (req : Request) (v : OCRResult)
    (hsha : env'.sha256 = env.sha256) (hnow : env'.now = env.now)
    (hct : req.content_type ∈ SUPPORTED_CONTENT_TYPES)
    (hhit : get_cached_result c env.now (env.sha256 req.contents) = some v) :
    (∃ r, (extract_text env c req).result = .ok r ∧
      r.success = v.success ∧ r.text = v.text ∧ r.confidence = v.confidence ∧
      r.processing_time_ms = v.processing_time_ms ∧ r.metadata = v.metadata ∧
      r.cached_at = v.cached_at ∧ r.cache_hit = none) ∧
    (extract_text env' c req).result = (extract_text env c req).result ∧
    (∀ (c0 : Cache) (t0 t1 : ℤ) (k : List Char) (r0 : OCRResult), t1 < t0 + ttl →
      get_cached_result (cache_result c0 t0 k r0) t1 k =
        some { r0 with cached_at := some t0, cache_hit := some true }) := by
  have hres : extract_text env c req = ⟨.ok { v with cache_hit := none }, c, false⟩ := by
    simp only [extract_text, hhit]
    rw [if_neg (by simpa using hct)]
  have hres' : extract_text env' c req = ⟨.ok { v with cache_hit := none }, c, false⟩ := by
    simp only [extract_text, hsha, hnow, hhit]
    rw [if_neg (by simpa using hct)]
  refine ⟨⟨{ v with cache_hit := none }, by rw [hres], rfl, rfl, rfl, rfl, rfl, rfl, rfl⟩,
    by rw [hres, hres'], ?_⟩
  intro c0 t0 t1 k r0 ht
  exact get_cached_result_cache_result c0 t0 t1 k r0 ht

/-- A second environment differing from `envW` only in the measured elapsed
time, to witness that a hit's response ignores it. -/
def envW' : Env :=
  { visionClient := none
    sha256 := fun _ => "k".toList
    metadataOf := fun _ _ _ => []
    now := 10
    elapsedMs := 9999 }

/-- Witness for C10 at a concrete hit and concrete store. -/
theorem claim_C10_witness :
    envW'.sha256 = envW.sha256 ∧ envW'.now = envW.now ∧
    reqW.content_type ∈ SUPPORTED_CONTENT_TYPES ∧
    get_cached_result cacheW envW.now (envW.sha256 reqW.contents) = some resW ∧
    ((∃ r, (extract_text envW cacheW reqW).result = .ok r ∧
      r.success = resW.success ∧ r.text = resW.text ∧ r.confidence = resW.confidence ∧
      r.processing_time_ms = resW.processing_time_ms ∧ r.metadata = resW.metadata ∧
      r.cached_at = resW.cached_at ∧ r.cache_hit = none) ∧
    (extract_text envW' cacheW reqW).result = (extract_text envW cacheW reqW).result ∧
    (∀ (c0 : Cache) (t0 t1 : ℤ) (k : List Char) (r0 : OCRResult), t1 < t0 + ttl →
      get_cached_result (cache_result c0 t0 k r0) t1 k =
        some { r0 with cached_at := some t0, cache_hit := some true })) :=
  ⟨rfl, rfl, by decide, rfl,
    claim_C10 envW envW' cacheW reqW resW rfl rfl (by decide) rfl⟩

/-! ### C4: the no-text outcome -/

/-- An engine response with no detected text and no error. -/
def docEmpty : OCRDocument := { text := [], pages := [] }

/-- Environment whose vision client reports no text for any image. -/
def envC4 : Env :=
  { visionClient := some fun _ => { document := docEmpty, error_message := [] }
    sha256 := fun _ => "k4".toList
    metadataOf := fun _ _ _ => "md".toList
    now := 100
    elapsedMs := 7 }

def reqC4 : Request :=
  { filename := "b.png".toList, content_type := "image/png".toList, contents := [9] }

/-- The response the code actually assembles on the no-text path. -/
def resC4 : OCRResult :=
  { success := false, text := noTextMessage, confidence := 0,
    processing_time_ms := 7, metadata := "md".toList, cached_at := none, cache_hit := none }

/-- C4 counterexample: the claim says the no-text `OCRResult` has empty text,
but src/apis/ocr.py line 125 stores the fixed message
"No text found in the image.", which is not empty. -/
theorem claim_C4_counterexample :
    (extract_text envC4 [] reqC4).result = .ok resC4 ∧
    resC4.text ≠ [] ∧ resC4.success = false ∧ resC4.confidence = 0 := by
  refine ⟨rfl, by decide, rfl, rfl⟩

/-- C4 (amended): on an OCR response with empty document text, `extract_text`
assembles and returns an OCRResult with success = false, confidence 0.0 and
the fixed message "No text found in the image." as its text (not empty text),
and this outcome is stored in the Result Cache under the request's key. -/
theorem claim_C4 (env : Env) (c : Cache) (req : Request)
    (client : List Nat → VisionResponse)
    (hct : req.content_type ∈ SUPPORTED_CONTENT_TYPES)
    (hmiss : get_cached_result c env.now (env.sha256 req.contents) = none)
    (hsize : ¬ req.contents.length > MAX_FILE_SIZE)
    (hcl : env.visionClient = some client)
    (herr : (client req.contents).error_message = [])
    (htext : (client req.contents).document.text = []) :
    ∃ r, extract_text env c req =
        ⟨.ok r, cache_result c env.now (env.sha256 req.contents) r, true⟩ ∧
      r.success = false ∧ r.text = noTextMessage ∧ r.confidence = 0 ∧
      get_cached_result (extract_text env c req).cache env.now (env.sha256 req.contents) =
        some { r with cached_at := some env.now, cache_hit := some true } := by
  have hout : extract_text env c req =
      ⟨.ok { success := false, text := noTextMessage, confidence := 0,
             processing_time_ms := env.elapsedMs,
             metadata := env.metadataOf req.filename req.content_type req.contents,
             cached_at := none, cache_hit := none },
        cache_result c env.now (env.sha256 req.contents)
          { success := false, text := noTextMessage, confidence := 0,
            processing_time_ms := env.elapsedMs,
            metadata := env.metadataOf req.filename req.content_type req.contents,
            cached_at := none, cache_hit := none }, true⟩ := by
    simp only [extract_text, hmiss, hcl, herr, htext]
    rw [if_neg (by simpa using hct), if_neg hsize]
    simp
  refine ⟨_, hout, rfl, rfl, rfl, ?_⟩
  rw [hout]
  exact get_cached_result_cache_result c env.now env.now (env.sha256 req.contents) _
    (by simp [ttl])

/-- Witness for C4 at a concrete no-text response. -/
theorem claim_C4_witness :
    reqC4.content_type ∈ SUPPORTED_CONTENT_TYPES ∧
    get_cached_result [] envC4.now (envC4.sha256 reqC4.contents) = none ∧
    ¬ reqC4.contents.length > MAX_FILE_SIZE ∧
    (∃ r, extract_text envC4 [] reqC4 =
        ⟨.ok r, cache_result [] envC4.now (envC4.sha256 reqC4.contents) r, true⟩ ∧
      r.success = false ∧ r.text = noTextMessage ∧ r.confidence = 0 ∧
      get_cached_result (extract_text envC4 [] reqC4).cache envC4.now
          (envC4.sha256 reqC4.contents) =
        some { r with cached_at := some envC4.now, cache_hit := some true }) :=
  ⟨by decide, rfl, by decide,
    claim_C4 envC4 [] reqC4 _ (by decide) rfl (by decide) rfl rfl rfl⟩

/-! ### C6: failures do not touch the cache -/

/-- C6: whenever `extract_text` ends in an error (UnsupportedMediaType,
PayloadTooLarge, ServiceUnavailable or InternalError), the cache afterwards is
exactly the cache before — nothing was stored; and for an unsupported content
type the whole outcome is fixed before any hashing or cache access: it is the
same for every environment (hence every hash function) and its cache
component is the untouched input cache. -/
theorem claim_C6 (env env' : Env) (c c' : Cache) (req : Request) :
    (∀ e, (extract_text env c req).result = .error e → (extract_text env c req).cache = c) ∧
    (req.content_type ∉ SUPPORTED_CONTENT_TYPES →
      extract_text env c req = ⟨.error (.unsupportedMediaType req.content_type), c, false⟩ ∧
      (extract_text env' c' req).result = (extract_text env c req).result) := by
  constructor
  · intro e he
    by_cases h1 : req.content_type ∉ SUPPORTED_CONTENT_TYPES
    · simp only [extract_text]; rw [if_pos h1]
    · cases hhit : get_cached_result c env.now (env.sha256 req.contents) with
      | some v =>
        have hok : (extract_text env c req).result = .ok { v with cache_hit := none } := by
          simp only [extract_text, hhit]; rw [if_neg h1]
        rw [hok] at he; exact absurd he (by simp)
      | none =>
        by_cases h2 : req.contents.length > MAX_FILE_SIZE
        · simp only [extract_text, hhit]; rw [if_neg h1, if_pos h2]
        · cases hcl : env.visionClient with
          | none => simp only [extract_text, hhit, hcl]; rw [if_neg h1, if_neg h2]
          | some client =>
            by_cases h3 : (client req.contents).error_message ≠ []
            · simp only [extract_text, hhit, hcl]; rw [if_neg h1, if_neg h2, if_pos h3]
            · have hok : ∃ r, (extract_text env c req).result = .ok r := by
                simp only [extract_text, hhit, hcl]
                rw [if_neg h1, if_neg h2, if_neg h3]
                exact ⟨_, rfl⟩
              obtain ⟨r, hr⟩ := hok
              rw [hr] at he; exact absurd he (by simp)
  · intro h
    have e1 : extract_text env c req =
        ⟨.error (.unsupportedMediaType req.content_type), c, false⟩ := by
      simp only [extract_text]; rw [if_pos h]
    have e2 : extract_text env' c' req =
        ⟨.error (.unsupportedMediaType req.content_type), c', false⟩ := by
      simp only [extract_text]; rw [if_pos h]
    exact ⟨e1, by rw [e1, e2]⟩

/-- A request with an unsupported declared content type. -/
def reqPdf : Request :=
  { filename := "doc.pdf".toList, content_type := "application/pdf".toList, contents := [1] }

/-- Witness for C6: a concrete "application/pdf" request fails with
UnsupportedMediaType, the cache stays empty, and the outcome is independent
of the environment. -/
theorem claim_C6_witness :
    (extract_text envW [] reqPdf).result =
      .error (.unsupportedMediaType "application/pdf".toList) ∧
    (extract_text envW [] reqPdf).cache = [] ∧
    reqPdf.content_type ∉ SUPPORTED_CONTENT_TYPES ∧
    extract_text envW [] reqPdf =
      ⟨.error (.unsupportedMediaType reqPdf.content_type), [], false⟩ ∧
    (extract_text envW' [] reqPdf).result = (extract_text envW [] reqPdf).result :=
  ⟨rfl, (claim_C6 envW envW' [] [] reqPdf).1 _ rfl, by decide,
   ((claim_C6 envW envW' [] [] reqPdf).2 (by decide)).1,
   ((claim_C6 envW envW' [] [] reqPdf).2 (by decide)).2⟩

/-! ### C7: capacity bound and expiry -/

theorem cache_put_length_le (c : Cache) (t : ℤ) (k : List Char) (v : OCRResult) :
    (cache_put c t k v).length ≤ maxsize := by
  unfold cache_put maxsize
  simp only [List.length_cons, List.length_take]
  omega

/-- C7: the maximum size is 1000 and the TTL 3600 seconds; starting from any
cache within capacity, any sequence of put operations (1001 distinct keys
included) leaves at most 1000 resident entries; and an entry put at time `t`
is absent from a lookup at any time from `t + ttl` on. -/
theorem claim_C7 :
    maxsize = 1000 ∧ ttl = 3600 ∧
    (∀ c0 : Cache, c0.length ≤ maxsize →
      ∀ ops : List (ℤ × List Char × OCRResult),
        (ops.foldl (fun c op => cache_put c op.1 op.2.1 op.2.2) c0).length ≤ maxsize) ∧
    (∀ (c : Cache) (t t' : ℤ) (k : List Char) (v : OCRResult), t + ttl ≤ t' →
      get_cached_result (cache_put c t k v) t' k = none) := by
  refine ⟨rfl, rfl, ?_, ?_⟩
  · intro c0 h0 ops
    induction ops generalizing c0 with
    | nil => exact h0
    | cons op ops ih =>
      exact ih _ (cache_put_length_le c0 op.1 op.2.1 op.2.2)
  · intro c t t' k v ht
    unfold get_cached_result cache_put
    rw [List.filter_cons_of_neg (by simp [liveAt]; omega)]
    have hfind : (List.filter (liveAt t')
        (((c.filter (liveAt t)).filter (fun e => e.key ≠ k)).take (maxsize - 1))).find?
          (fun e => e.key = k) = none := by
      rw [List.find?_eq_none]
      intro x hx
      have hx1 : x ∈ ((c.filter (liveAt t)).filter (fun e => e.key ≠ k)).take (maxsize - 1) :=
        (List.mem_filter.mp hx).1
      have hx2 : x ∈ (c.filter (liveAt t)).filter (fun e => e.key ≠ k) :=
        List.take_subset _ _ hx1
      have hx3 := (List.mem_filter.mp hx2).2
      simp only [decide_not, Bool.not_eq_eq_eq_not, Bool.not_true, decide_eq_false_iff_not] at hx3
      simp [hx3]
    rw [hfind]
    rfl

/-- Witness for C7: instantiate the capacity bound on an empty starting cache
and a concrete three-put sequence, and the expiry fact at insertion time 0
and lookup time 3600. -/
theorem claim_C7_witness :
    ([] : Cache).length ≤ maxsize ∧
    (0 : ℤ) + ttl ≤ 3600 ∧
    (([((0 : ℤ), "a".toList, resW), ((1 : ℤ), "b".toList, resW),
        ((2 : ℤ), "c".toList, resW)].foldl
      (fun c op => cache_put c op.1 op.2.1 op.2.2) ([] : Cache)).length ≤ maxsize) ∧
    get_cached_result (cache_put [] 0 "a".toList resW) 3600 "a".toList = none :=
  ⟨by decide, by decide,
   (claim_C7.2.2.1 [] (by decide) _),
   (claim_C7.2.2.2 [] 0 3600 "a".toList resW (by decide))⟩

/-! ### C8: batch processing -/

/-- C8: the batch endpoint produces exactly one result per input, in input
order; each slot is the single-image outcome on the cache state the previous
images left behind — an image whose processing raised an error contributes a
failure record (success = false, confidence 0.0) and the remaining images are
still processed; every failure record has success = false and confidence 0. -/
theorem claim_C8 :
    (∀ (env : Env) (c : Cache) (reqs : List Request),
      (batch_extract_text env c reqs).1.length = reqs.length) ∧
    (∀ (env : Env) (c : Cache) (req : Request) (rest : List Request),
      (batch_extract_text env c (req :: rest)).1 =
        (match (extract_text env c req).result with
          | .ok v => v
          | .error e => failure_marker req.filename (errDetail e)) ::
        (batch_extract_text env (extract_text env c req).cache rest).1) ∧
    (∀ (fn d : List Char),
      (failure_marker fn d).success = false ∧ (failure_marker fn d).confidence = 0) := by
  refine ⟨?_, ?_, ?_⟩
  · intro env c reqs
    induction reqs generalizing c with
    | nil => rfl
    | cons req rest ih =>
      simp only [batch_extract_text, List.length_cons]
      rw [ih]
  · intro env c req rest
    rfl
  · intro fn d
    exact ⟨rfl, rfl⟩

/-! ### C9: the text normalizer

Spec-side normal form: split the printable-substituted text into its maximal
whitespace-free words and join them with single spaces. The theorem that
`text_cleanup` equals this normal form captures "collapse any run of
whitespace into one space and trim the ends". -/

/-- The maximal whitespace-free words of a character list, in order. -/
def asciiWords : List Char → List (List Char)
  | [] => []
  | c :: cs =>
    if isPySpace c then asciiWords cs
    else (c :: cs.takeWhile (fun x => !isPySpace x)) ::
      asciiWords (cs.dropWhile (fun x => !isPySpace x))
termination_by l => l.length
decreasing_by
  · simp
  · simp only [List.length_cons]
    exact Nat.lt_succ_of_le (dropWhile_length_le _ _)

/-- Join words with one single space between consecutive words. -/
def joinWords : List (List Char) → List Char
  | [] => []
  | [w] => w
  | w :: ws => w ++ ' ' :: joinWords ws

/-- Right-side whitespace strip. -/
def stripRight (l : List Char) : List Char :=
  (l.reverse.dropWhile isPySpace).reverse

theorem collapseWS_nil : collapseWS [] = [] := by
  rw [collapseWS]

theorem collapseWS_cons_space {c : Char} (cs : List Char) (h : isPySpace c = true) :
    collapseWS (c :: cs) = ' ' :: collapseWS (cs.dropWhile isPySpace) := by
  rw [collapseWS, if_pos h]

theorem collapseWS_cons_nonspace {c : Char} (cs : List Char) (h : isPySpace c = false) :
    collapseWS (c :: cs) = c :: collapseWS cs := by
  rw [collapseWS, if_neg (by simp [h])]

theorem asciiWords_nil : asciiWords [] = [] := by
  rw [asciiWords]

theorem asciiWords_cons_space {c : Char} (cs : List Char) (h : isPySpace c = true) :
    asciiWords (c :: cs) = asciiWords cs := by
  rw [asciiWords, if_pos h]

theorem asciiWords_cons_nonspace {c : Char} (cs : List Char) (h : isPySpace c = false) :
    asciiWords (c :: cs) =
      (c :: cs.takeWhile (fun x => !isPySpace x)) ::
        asciiWords (cs.dropWhile (fun x => !isPySpace x)) := by
  rw [asciiWords, if_neg (by simp [h])]

theorem pyStrip_space_cons {c : Char} (l : List Char) (h : isPySpace c = true) :
    pyStrip (c :: l) = pyStrip l := by
  unfold pyStrip
  rw [List.dropWhile_cons, if_pos h]

theorem asciiWords_dropWhile (l : List Char) :
    asciiWords (l.dropWhile isPySpace) = asciiWords l := by
  induction l with
  | nil => rfl
  | cons c cs ih =>
    rw [List.dropWhile_cons]
    by_cases h : isPySpace c
    · rw [if_pos h, ih, asciiWords_cons_space cs h]
    · rw [if_neg h]

theorem dropWhile_head_not {p : Char → Bool} {l : List Char} {s : Char} {r : List Char}
    (h : l.dropWhile p = s :: r) : p s = false := by
  induction l with
  | nil => simp [List.dropWhile] at h
  | cons a l ih =>
    rw [List.dropWhile_cons] at h
    by_cases ha : p a
    · exact ih (by rwa [if_pos ha] at h)
    · rw [if_neg ha] at h
      cases h
      exact Bool.eq_false_iff.mpr ha

theorem nospace_dropWhile_eq {l : List Char} (h : ∀ x ∈ l, isPySpace x = false) :
    l.dropWhile isPySpace = l := by
  cases l with
  | nil => rfl
  | cons a l =>
    rw [List.dropWhile_cons, if_neg (by simp [h a (List.mem_cons_self a l)])]

theorem collapseWS_nospace_append {w : List Char} (r : List Char)
    (h : ∀ x ∈ w, isPySpace x = false) :
    collapseWS (w ++ r) = w ++ collapseWS r := by
  induction w with
  | nil => rfl
  | cons a w ih =>
    rw [List.cons_append,
      collapseWS_cons_nonspace _ (h a (List.mem_cons_self a w)),
      ih (fun x hx => h x (List.mem_cons_of_mem a hx))]
    simp

theorem pyStrip_eq_stripRight {l : List Char}
    (h : l = [] ∨ ∃ a t, l = a :: t ∧ isPySpace a = false) :
    pyStrip l = stripRight l := by
  rcases h with h | ⟨a, t, rfl, ha⟩
  · subst h; rfl
  · unfold pyStrip stripRight
    rw [List.dropWhile_cons, if_neg (by simp [ha])]

theorem stripRight_nospace_append {x : List Char} (z : List Char)
    (h : ∀ ch ∈ x, isPySpace ch = false) :
    stripRight (x ++ z) = x ++ stripRight z := by
  unfold stripRight
  rw [List.reverse_append, List.dropWhile_append]
  by_cases he : (z.reverse.dropWhile isPySpace).isEmpty
  · rw [if_pos he]
    rw [nospace_dropWhile_eq (fun ch hch => h ch (List.mem_reverse.mp hch))]
    rw [List.reverse_reverse]
    have hz : z.reverse.dropWhile isPySpace = [] := by
      simpa [List.isEmpty_iff] using he
    rw [hz]
    simp
  · rw [if_neg he]
    rw [List.reverse_append, List.reverse_reverse]

theorem stripRight_space_cons (y : List Char) :
    stripRight (' ' :: y) =
      if stripRight y = [] then [] else ' ' :: stripRight y := by
  unfold stripRight
  rw [show (' ' :: y).reverse = y.reverse ++ [' '] by simp]
  rw [List.dropWhile_append]
  by_cases he : (y.reverse.dropWhile isPySpace).isEmpty
  · rw [if_pos he]
    have hz : y.reverse.dropWhile isPySpace = [] := by
      simpa [List.isEmpty_iff] using he
    rw [hz]
    simp [List.dropWhile, isPySpace]
  · rw [if_neg he]
    have hz : y.reverse.dropWhile isPySpace ≠ [] := by
      simpa [List.isEmpty_iff] using he
    rw [if_neg (by simpa using hz)]
    simp

theorem asciiWords_ne_nil_aux :
    ∀ (n : ℕ) (l : List Char), l.length ≤ n → ∀ w ∈ asciiWords l, w ≠ [] := by
  intro n
  induction n with
  | zero =>
    intro l hl
    rw [List.length_eq_zero.mp (Nat.le_zero.mp hl)]
    simp [asciiWords_nil]
  | succ n ih =>
    intro l hl
    cases l with
    | nil => simp [asciiWords_nil]
    | cons c cs =>
      have hcs : cs.length ≤ n := by simpa using hl
      by_cases h : isPySpace c
      · rw [asciiWords_cons_space cs h]
        exact ih cs hcs
      · rw [asciiWords_cons_nonspace cs (Bool.eq_false_iff.mpr h)]
        intro w hw
        rcases List.mem_cons.mp hw with rfl | hw
        · simp
        · exact ih (cs.dropWhile (fun x => !isPySpace x))
            (le_trans (dropWhile_length_le _ _) hcs) w hw

theorem asciiWords_ne_nil {l : List Char} : ∀ w ∈ asciiWords l, w ≠ [] :=
  asciiWords_ne_nil_aux l.length l le_rfl

theorem joinWords_ne_nil_of {ws : List (List Char)} (hne : ws ≠ [])
    (h : ∀ w ∈ ws, w ≠ []) : joinWords ws ≠ [] := by
  cases ws with
  | nil => exact absurd rfl hne
  | cons w ws =>
    cases ws with
    | nil =>
      have := h w (List.mem_cons_self w [])
      simpa [joinWords] using this
    | cons w' ws' =>
      have hw := h w (List.mem_cons_self w _)
      cases w with
      | nil => exact absurd rfl hw
      | cons a w => simp [joinWords]

theorem strip_collapse_eq_join_aux :
    ∀ (n : ℕ) (t : List Char), t.length ≤ n →
      pyStrip (collapseWS t) = joinWords (asciiWords t) := by
  intro n
  induction n with
  | zero =>
    intro t ht
    rw [List.length_eq_zero.mp (Nat.le_zero.mp ht), collapseWS_nil, asciiWords_nil]
    rfl
  | succ n ih =>
    intro t ht
    cases t with
    | nil => rw [collapseWS_nil, asciiWords_nil]; rfl
    | cons c cs =>
      have hcs : cs.length ≤ n := by simpa using ht
      by_cases h : isPySpace c
      · rw [collapseWS_cons_space cs h, pyStrip_space_cons _ (by simp [isPySpace]),
          ih _ (le_trans (dropWhile_length_le _ _) hcs),
          asciiWords_dropWhile, asciiWords_cons_space cs h]
      · have hcf : isPySpace c = false := Bool.eq_false_iff.mpr h
        have hsplit : cs =
            cs.takeWhile (fun x => !isPySpace x) ++ cs.dropWhile (fun x => !isPySpace x) :=
          (List.takeWhile_append_dropWhile _ _).symm
        have hw : ∀ x ∈ cs.takeWhile (fun x => !isPySpace x), isPySpace x = false := by
          intro x hx
          simpa using List.mem_takeWhile_imp hx
        have hcw : ∀ x ∈ c :: cs.takeWhile (fun x => !isPySpace x), isPySpace x = false := by
          intro x hx
          rcases List.mem_cons.mp hx with rfl | hx
          · exact hcf
          · exact hw x hx
        have hLHS : collapseWS (c :: cs) =
            (c :: cs.takeWhile (fun x => !isPySpace x)) ++
              collapseWS (cs.dropWhile (fun x => !isPySpace x)) := by
          rw [collapseWS_cons_nonspace cs hcf]
          conv_lhs => rw [hsplit]
          rw [collapseWS_nospace_append _ hw]
          simp
        rw [hLHS, asciiWords_cons_nonspace cs hcf]
        cases hr : cs.dropWhile (fun x => !isPySpace x) with
        | nil =>
          rw [collapseWS_nil, List.append_nil, asciiWords_nil]
          rw [pyStrip_eq_stripRight (Or.inr ⟨c, cs.takeWhile (fun x => !isPySpace x), rfl, hcf⟩)]
          unfold stripRight
          rw [nospace_dropWhile_eq (fun ch hch => hcw ch (List.mem_reverse.mp hch)),
            List.reverse_reverse]
          rfl
        | cons s r' =>
          have hs : isPySpace s = true := by
            simpa using dropWhile_head_not hr
          have hrlen : r'.length < cs.length := by
            have h1 : (s :: r').length ≤ cs.length := hr ▸ dropWhile_length_le _ _
            simpa using h1
          rw [collapseWS_cons_space r' hs, asciiWords_cons_space r' hs,
            ← asciiWords_dropWhile r']
          rw [pyStrip_eq_stripRight
            (Or.inr ⟨c, cs.takeWhile (fun x => !isPySpace x) ++
              ' ' :: collapseWS (r'.dropWhile isPySpace), List.cons_append .., hcf⟩)]
          rw [stripRight_nospace_append _ hcw, stripRight_space_cons _]
          have hy : collapseWS (r'.dropWhile isPySpace) = [] ∨
              ∃ a t', collapseWS (r'.dropWhile isPySpace) = a :: t' ∧ isPySpace a = false := by
            cases hr2 : r'.dropWhile isPySpace with
            | nil => exact Or.inl collapseWS_nil
            | cons a t' =>
              have ha : isPySpace a = false := dropWhile_head_not hr2
              exact Or.inr ⟨a, collapseWS t', collapseWS_cons_nonspace t' ha, ha⟩
          have hstr : stripRight (collapseWS (r'.dropWhile isPySpace)) =
              joinWords (asciiWords (r'.dropWhile isPySpace)) := by
            rw [← pyStrip_eq_stripRight hy]
            exact ih _ (le_trans (dropWhile_length_le _ _)
              (le_trans (Nat.le_of_lt hrlen) hcs))
          rw [hstr]
          cases hws : asciiWords (r'.dropWhile isPySpace) with
          | nil => simp [joinWords]
          | cons w1 ws =>
            have hne : joinWords (w1 :: ws) ≠ [] :=
              joinWords_ne_nil_of (by simp)
                (fun w hwmem => asciiWords_ne_nil w (hws ▸ hwmem))
            rw [if_neg hne]
            rfl

/-- The spec-side normal form of `text_cleanup`: the whitespace-free words of
the printable-substituted text, joined with single spaces. -/
def cleanupSpec (s : List Char) : List Char :=
  joinWords (asciiWords (replaceNonPrintable s))

/-- C9: the normalizer is total (it is a Lean function, so it raises nothing),
maps the empty string to the empty string, and for every input equals the
spec-side normal form: replace every character outside printable ASCII
0x20–0x7E by a space, then the maximal whitespace-free words joined by single
spaces — which is exactly "collapse every whitespace run into one space and
trim the ends". -/
theorem claim_C9 :
    text_cleanup [] = [] ∧ ∀ s : List Char, text_cleanup s = cleanupSpec s := by
  refine ⟨?_, fun s => ?_⟩
  · show pyStrip (collapseWS (replaceNonPrintable [])) = []
    rw [show replaceNonPrintable [] = [] from rfl, collapseWS_nil]
    rfl
  unfold text_cleanup cleanupSpec
  exact strip_collapse_eq_join_aux (replaceNonPrintable s).length _ le_rfl

end OCRGateway
